import Mathlib

set_option maxHeartbeats 1000000
set_option maxRecDepth 4000

/-!
Verification of the mdbook-multicode preprocessor core (src/src/lib.rs).

The Rust source is embedded shallowly: the per-chapter line loop of
`Multicode::run` becomes an explicit state-passing function over a state
record, the `HashMap` becomes an association list with overwriting insert,
`Vec::push` becomes list append, fallible accesses (`Option::unwrap`) become
`Option`-returning functions, and `str::lines` / `String::replace` /
`format!` are embedded as character-list functions with the same semantics.
The template header file (`script_template.html`, included with
`include_str!`) is not part of the embedded core; its content is taken as an
arbitrary `header : String` parameter, which is all the claims need.
-/

/-- Characters accepted by the `[a-zA-Z0-9]+` capture group of the
`code_start` regex (src/src/lib.rs line 27). -/
def isAlnumChar (c : Char) : Bool :=
  ( 'a' ≤ c && c ≤ 'z') || ( 'A' ≤ c && c ≤ 'Z') || ( '0' ≤ c && c ≤ '9')

/-- Embedding of the anchored regex `^```multicode$` (line 25): a whole-line
exact match. -/
def multicode_regex (line : String) : Bool := line = "```multicode"

/-- Embedding of the anchored regex `^```$` (line 26). -/
def end_multicode (line : String) : Bool := line = "```"

/-- Embedding of the anchored regex `^>>>>> ([a-zA-Z0-9]+)$` (line 27),
returning the capture group when the whole line matches. -/
def code_start (line : String) : Option String :=
  match line.data with
  | '>' :: '>' :: '>' :: '>' :: '>' :: ' ' :: rest =>
    if rest.isEmpty then none
    else if rest.all isAlnumChar then some (String.mk rest) else none
  | _ => none

/-- Embedding of the anchored regex `^<<<<<$` (line 28). -/
def code_end (line : String) : Bool := line = "<<<<<"

/-- Replace every occurrence of the character `c` in the list by `r`.
This is the semantics of Rust's `String::replace` with a single-character
pattern: every match is one character long, so replacement is
character-wise. -/
def replace_char : List Char → Char → List Char → List Char
  | [], _, _ => []
  | x :: xs, c, r => (if x = c then r else [x]) ++ replace_char xs c r

/-- String wrapper for `replace_char`. -/
def str_replace (s : String) (c : Char) (r : String) : String :=
  String.mk (replace_char s.data c r.data)

/-- Embedding of `html_escape` (src/src/lib.rs lines 144-152): five
successive `replace` passes, `&` first. `Char.ofNat 34` is the double quote
and `Char.ofNat 39` the single quote. -/
def html_escape (text : String) : String :=
  let t := str_replace text '&' "&amp;"
  let t := str_replace t '<' "&lt;"
  let t := str_replace t '>' "&gt;"
  let t := str_replace t (Char.ofNat 34) "&quot;"
  let t := str_replace t (Char.ofNat 39) "&#39;"
  t

/-- Single-character escaping as the spec describes it (§4.1, §8): each of
the five special characters becomes its entity, every other character is
kept verbatim, and the produced entities are not rewritten further. -/
def escapeCharSpec (c : Char) : List Char :=
  if c = '&' then "&amp;".data
  else if c = '<' then "&lt;".data
  else if c = '>' then "&gt;".data
  else if c = Char.ofNat 34 then "&quot;".data
  else if c = Char.ofNat 39 then "&#39;".data
  else [c]

/-- One-pass escaping derived from the spec's words: concatenation of the
per-character escapes. -/
def escape_spec_core : List Char → List Char
  | [] => []
  | c :: cs => escapeCharSpec c ++ escape_spec_core cs

/-- String wrapper of `escape_spec_core` (the spec-side contract of the
Escaper). -/
def escape_spec (s : String) : String := String.mk (escape_spec_core s.data)

/-- Drop one trailing carriage return, as Rust's `str::lines` does at the
end of every line. -/
def strip_cr (l : List Char) : List Char :=
  if l.getLast? = some '\r' then l.dropLast else l

/-- Embedding of Rust's `str::lines`: split at every line feed, strip one
trailing carriage return per line, and do not produce a final empty line
when the text ends with a line feed. `acc` holds the characters of the
current line read so far. -/
def lines_core : List Char → List Char → List String
  | [], acc => if acc.isEmpty then [] else [String.mk (strip_cr acc)]
  | c :: cs, acc =>
    if c = '\n' then String.mk (strip_cr acc) :: lines_core cs []
    else lines_core cs (acc ++ [c])

/-- The line sequence `chapter.content.lines()` iterates over
(src/src/lib.rs line 52). -/
def content_lines (s : String) : List String := lines_core s.data []

/-- Embedding of `HashMap::insert`: overwrite the value when the key is
present, append the binding otherwise. Only `lookup` observes the map, so
the bucket order of the real `HashMap` is irrelevant. -/
def hashInsert : List (String × String) → String → String → List (String × String)
  | [], k, v => [(k, v)]
  | (k0, v0) :: rest, k, v =>
    if k0 = k then (k, v) :: rest else (k0, v0) :: hashInsert rest k v

/-- Decimal digit characters, as produced by Rust's `Display` for `usize`. -/
def decDigitChar (n : Nat) : Char :=
  if n = 0 then '0' else if n = 1 then '1' else if n = 2 then '2'
  else if n = 3 then '3' else if n = 4 then '4' else if n = 5 then '5'
  else if n = 6 then '6' else if n = 7 then '7' else if n = 8 then '8'
  else if n = 9 then '9' else '*'

/-- Fuelled most-significant-digit-first decimal rendering; the fuel only
has to exceed the number of digits. -/
def toDecCore : Nat → Nat → List Char → List Char
  | 0, _, ds => ds
  | f + 1, n, ds =>
    let d := decDigitChar (n % 10)
    if n / 10 = 0 then d :: ds else toDecCore f (n / 10) (d :: ds)

/-- Embedding of Rust's `format!` rendering of a `usize`: the decimal digit
string. -/
def natDec (n : Nat) : String := String.mk (toDecCore (n + 1) n [])

/-- The per-block group id `example_class_name` (src/src/lib.rs line 77):
`code-example-tab-{lang_example_no}`. -/
def example_class_name (n : Nat) : String := "code-example-tab-" ++ natDec n

/-- One `<option>` of the selector (src/src/lib.rs lines 81-83). -/
def lang_select_option (cls lang : String) : String :=
  "<option value=\"" ++ cls ++ "-" ++ lang ++ "\">" ++ lang ++ "</option>"

/-- The concatenated option list (map plus fold, lines 79-87). -/
def lang_select_options (cls : String) (langs : List String) : String :=
  String.join (langs.map (lang_select_option cls))

/-- The opening of the selector markup (src/src/lib.rs lines 90-92). -/
def select_header (cls first : String) : String :=
  "<div><select onchange=\"changeCodeExample(\x27" ++ cls ++
    "\x27, event.target.value)\" value=\"" ++ first ++
    "\" class=\"code-example\" autocomplete=\"off\">"

/-- One language panel (src/src/lib.rs lines 99-103). -/
def lang_panel (cls lang text : String) : String :=
  "<div id=\"" ++ cls ++ "-" ++ lang ++ "\" class=\"" ++ cls ++
    "\"><pre><code class=\"language-" ++ lang ++ "\">" ++
    html_escape text ++ "</code></pre></div>"

/-- The panel loop (src/src/lib.rs lines 97-104): one panel per entry of
`langs`, where `lang_texts.get(lang).unwrap()` becomes an `Option`. -/
def lang_panels (cls : String) (texts : List (String × String)) :
    List String → Option String
  | [] => some ""
  | lang :: rest =>
    match texts.lookup lang with
    | none => none
    | some text =>
      match lang_panels cls texts rest with
      | none => none
      | some s => some (lang_panel cls lang text ++ s)

/-- The activation script (src/src/lib.rs lines 106-108). -/
def script_tag (cls first : String) : String :=
  "<script>(()=>\x7bchangeCodeExample(\"" ++ cls ++ "\", \"" ++ cls ++
    "-" ++ first ++ "\")\x7d)()</script>"

/-- Everything appended to `new_content` by the non-empty branch of the
block-close case (src/src/lib.rs lines 76-109): selector, newline, panels,
script. `langs.first().unwrap()` and the text lookups become `Option`. -/
def emit_block (n : Nat) (langs : List String)
    (texts : List (String × String)) : Option String :=
  match langs.head? with
  | none => none
  | some first =>
    let cls := example_class_name n
    match lang_panels cls texts langs with
    | none => none
    | some panels =>
      some (select_header cls first ++ lang_select_options cls langs ++
        "</select></div>\n" ++ panels ++ script_tag cls first)

/-- Embedding of the `ParseState` enum (src/src/lib.rs lines 16-20). -/
inductive ParseState where
  | Nothing : ParseState
  | Multicode : ParseState
  | Code : String → ParseState
deriving DecidableEq, Repr

/-- The mutable locals of the chapter loop (src/src/lib.rs lines 53-61)
gathered into one record. -/
structure St where
  lang_example_no : Nat
  langs : List String
  lang_texts : List (String × String)
  new_content : String
  parse_state : ParseState
deriving DecidableEq, Repr

/-- Embedding of one iteration of the `for line in lines` loop
(src/src/lib.rs lines 62-127). `none` models a panic of an `unwrap`. -/
def run_line (st : St) (line : String) : Option St :=
  match st.parse_state with
  | ParseState.Nothing =>
    if multicode_regex line then
      some { st with parse_state := ParseState.Multicode }
    else
      some { st with new_content := st.new_content ++ line ++ "\n" }
  | ParseState.Multicode =>
    if end_multicode line then
      if st.langs.isEmpty then
        some { st with parse_state := ParseState.Nothing,
                       lang_example_no := st.lang_example_no + 1 }
      else
        match emit_block st.lang_example_no st.langs st.lang_texts with
        | none => none
        | some markup =>
          some { st with parse_state := ParseState.Nothing,
                         new_content := st.new_content ++ markup,
                         lang_example_no := st.lang_example_no + 1 }
    else
      match code_start line with
      | some lang =>
        some { st with langs := st.langs ++ [lang],
                       lang_texts := hashInsert st.lang_texts lang "",
                       parse_state := ParseState.Code lang }
      | none => some st
  | ParseState.Code lang =>
    if code_end line then
      some { st with parse_state := ParseState.Multicode }
    else
      match st.lang_texts.lookup lang with
      | none => none
      | some t =>
        some { st with
          lang_texts := hashInsert st.lang_texts lang (t ++ line ++ "\n") }

/-- The whole `for line in lines` loop. -/
def run_lines (st : St) : List String → Option St
  | [] => some st
  | l :: ls =>
    match run_line st l with
    | none => none
    | some st2 => run_lines st2 ls

/-- The chapter-local state right before the loop (src/src/lib.rs lines
53-61): counters and buffers empty, `new_content` holding the template
header and a newline. -/
def init_state (header : String) : St :=
  { lang_example_no := 0, langs := [], lang_texts := [],
    new_content := header ++ "\n", parse_state := ParseState.Nothing }

/-- The transformation of one chapter's content (src/src/lib.rs lines
51-131): run the loop over the chapter's lines and return the new content. -/
def run_chapter (header content : String) : Option String :=
  (run_lines (init_state header) (content_lines content)).map St.new_content

/-- The blow-up test of src/src/lib.rs lines 41-45: the preprocessor's
configuration table, when present, is checked for the key `blow-up`. `cfg`
is the table's key set (`none` when the host supplies no table). -/
def blow_up_requested (cfg : Option (List String)) : Bool :=
  match cfg with
  | some keys => keys.contains "blow-up"
  | none => false

/-- Embedding of `Multicode::run` (src/src/lib.rs lines 38-137): fail
before touching any chapter when the blow-up key is present, otherwise
rewrite every chapter. Each chapter's `Option` models the possibility of a
panic inside the loop. -/
def run (cfg : Option (List String)) (header : String)
    (chapters : List String) : Except String (List (Option String)) :=
  if blow_up_requested cfg then Except.error "Blowing up!"
  else Except.ok (chapters.map (run_chapter header))

/-- The part of the invariant attached to the parse state. -/
def psInv (ps : ParseState) (texts : List (String × String)) : Prop :=
  match ps with
  | ParseState.Code lang => (List.lookup lang texts).isSome = true
  | _ => True

instance (ps : ParseState) (texts : List (String × String)) :
    Decidable (psInv ps texts) := by
  cases ps with
  | Code lang => exact inferInstanceAs (Decidable ((List.lookup lang texts).isSome = true))
  | Nothing => exact isTrue trivial
  | Multicode => exact isTrue trivial

/-- Invariant of the chapter loop state. -/
def StInv (st : St) : Prop :=
  (∀ l ∈ st.langs, (List.lookup l st.lang_texts).isSome = true) ∧
  psInv st.parse_state st.lang_texts

instance (st : St) : Decidable (StInv st) := instDecidableAnd

/-- Bool substring test on character lists (used to point at fragments of
concrete outputs). -/
def isSubArr : List Char → List Char → Bool
  | needle, [] => needle.isEmpty
  | needle, c :: rest => needle.isPrefixOf (c :: rest) || isSubArr needle rest

/-- The output text a list of lines copied verbatim becomes: each line
followed by a newline. -/
def join_lines : List String → String
  | [] => ""
  | l :: ls => l ++ "\n" ++ join_lines ls

/-! ## Concrete documents used to settle the claims -/

/-- Two blocks: the first declares `rust`, the second declares only `cpp`. -/
def docC1 : String :=
  "```multicode\n>>>>> rust\na\n<<<<<\n```\n```multicode\n>>>>> cpp\nb\n<<<<<\n```\n"

/-- One block that declares `rust` twice, with bodies `a` and `b`. -/
def docC2 : String :=
  "```multicode\n>>>>> rust\na\n<<<<<\n>>>>> rust\nb\n<<<<<\n```\n"

/-- A block declaring `rust`, followed by a block with no section at all. -/
def docC3 : String :=
  "```multicode\n>>>>> rust\na\n<<<<<\n```\n```multicode\n```\n"

/-- The first block of `docC3` alone. -/
def docC3base : String := "```multicode\n>>>>> rust\na\n<<<<<\n```\n"

/-- Two blocks declaring the same language set. -/
def docC6 : String :=
  "```multicode\n>>>>> rust\nx\n<<<<<\n```\n```multicode\n>>>>> rust\ny\n<<<<<\n```\n"

/-- One block that declares `rust` twice, with bodies `a` and `b`. -/
def docC8 : String :=
  "```multicode\n>>>>> rust\na\n<<<<<\n>>>>> rust\nb\n<<<<<\n```\n"

/-- A complete block followed by a block left unterminated inside a `cpp`
section buffering the text `zz`. -/
def docC9 : String :=
  "```multicode\n>>>>> rust\na\n<<<<<\n```\n```multicode\n>>>>> cpp\nzz\n"

/-! ## Generic helper lemmas -/

theorem lookup_cons (a k v : String) (es : List (String × String)) :
    List.lookup a ((k, v) :: es) = if a = k then some v else List.lookup a es := by
  by_cases h : a = k
  · simp [List.lookup, h]
  · have hb : (a == k) = false := by simpa using h
    simp [List.lookup, hb, h]

theorem lookup_hashInsert_self (m : List (String × String)) (k v : String) :
    List.lookup k (hashInsert m k v) = some v := by
  induction m with
  | nil => simp [hashInsert, lookup_cons]
  | cons p rest ih =>
    obtain ⟨k0, v0⟩ := p
    by_cases h : k0 = k
    · simp [hashInsert, h, lookup_cons]
    · rw [show hashInsert ((k0, v0) :: rest) k v = (k0, v0) :: hashInsert rest k v by
        simp [hashInsert, h]]
      rw [lookup_cons, if_neg (Ne.symm h)]
      exact ih

theorem lookup_hashInsert_ne (m : List (String × String)) (k v a : String)
    (h : a ≠ k) : List.lookup a (hashInsert m k v) = List.lookup a m := by
  induction m with
  | nil => simp [hashInsert, lookup_cons, h]
  | cons p rest ih =>
    obtain ⟨k0, v0⟩ := p
    by_cases hk : k0 = k
    · subst hk
      simp [hashInsert, lookup_cons, h]
    · rw [show hashInsert ((k0, v0) :: rest) k v = (k0, v0) :: hashInsert rest k v by
        simp [hashInsert, hk]]
      rw [lookup_cons, lookup_cons]
      by_cases ha : a = k0 <;> simp [ha, ih]

/-! ## The parser invariant: every declared language has a text entry, and
the active language of a `Code` state has a text entry. -/

theorem lang_panels_isSome (cls : String) (texts : List (String × String))
    (langs : List String)
    (h : ∀ l ∈ langs, (List.lookup l texts).isSome = true) :
    (lang_panels cls texts langs).isSome = true := by
  induction langs with
  | nil => simp [lang_panels]
  | cons l rest ih =>
    have hl := h l (by simp)
    obtain ⟨t, ht⟩ := Option.isSome_iff_exists.mp hl
    have hrest := ih (fun x hx => h x (by simp [hx]))
    obtain ⟨s, hs⟩ := Option.isSome_iff_exists.mp hrest
    simp [lang_panels, ht, hs]

theorem emit_block_isSome (n : Nat) (langs : List String)
    (texts : List (String × String)) (hne : langs ≠ [])
    (h : ∀ l ∈ langs, (List.lookup l texts).isSome = true) :
    (emit_block n langs texts).isSome = true := by
  obtain ⟨first, rest, rfl⟩ := List.exists_cons_of_ne_nil hne
  have hp := lang_panels_isSome (example_class_name n) texts (first :: rest) h
  obtain ⟨s, hs⟩ := Option.isSome_iff_exists.mp hp
  simp [emit_block, hs]

theorem lookup_isSome_hashInsert (texts : List (String × String))
    (k v a : String) (h : (List.lookup a texts).isSome = true) :
    (List.lookup a (hashInsert texts k v)).isSome = true := by
  by_cases ha : a = k
  · subst ha; simp [lookup_hashInsert_self]
  · rw [lookup_hashInsert_ne _ _ _ _ ha]; exact h

theorem run_line_total (st : St) (line : String) (h : StInv st) :
    ∃ st', run_line st line = some st' ∧ StInv st' := by
  obtain ⟨h1, h2⟩ := h
  cases hps : st.parse_state with
  | Nothing =>
    by_cases hm : multicode_regex line = true
    · refine ⟨{ st with parse_state := ParseState.Multicode }, ?_, h1, trivial⟩
      simp [run_line, hps, hm]
    · refine ⟨{ st with new_content := st.new_content ++ line ++ "\n" },
        ?_, h1, ?_⟩
      · simp [run_line, hps, hm]
      · exact h2
  | Multicode =>
    by_cases he : end_multicode line = true
    · by_cases hemp : st.langs.isEmpty = true
      · refine ⟨{ st with parse_state := ParseState.Nothing,
                          lang_example_no := st.lang_example_no + 1 },
          ?_, h1, trivial⟩
        simp [run_line, hps, he, hemp]
      · have hne : st.langs ≠ [] := by simpa [List.isEmpty_iff] using hemp
        have hsome := emit_block_isSome st.lang_example_no st.langs
          st.lang_texts hne h1
        obtain ⟨m, hm⟩ := Option.isSome_iff_exists.mp hsome
        refine ⟨{ st with parse_state := ParseState.Nothing,
                          new_content := st.new_content ++ m,
                          lang_example_no := st.lang_example_no + 1 },
          ?_, h1, trivial⟩
        simp [run_line, hps, he, hemp, hm]
    · cases hcs : code_start line with
      | none =>
        refine ⟨st, ?_, h1, h2⟩
        simp [run_line, hps, he, hcs]
      | some lang =>
        refine ⟨{ st with langs := st.langs ++ [lang],
                          lang_texts := hashInsert st.lang_texts lang "",
                          parse_state := ParseState.Code lang }, ?_, ?_, ?_⟩
        · simp [run_line, hps, he, hcs]
        · intro l hl
          rcases List.mem_append.mp hl with hl | hl
          · exact lookup_isSome_hashInsert _ _ _ _ (h1 l hl)
          · rw [List.mem_singleton] at hl
            subst hl
            simp [lookup_hashInsert_self]
        · show (List.lookup lang (hashInsert st.lang_texts lang "")).isSome = true
          simp [lookup_hashInsert_self]
  | Code lang =>
    have h2' : (List.lookup lang st.lang_texts).isSome = true := by
      rw [hps] at h2; exact h2
    by_cases hc : code_end line = true
    · refine ⟨{ st with parse_state := ParseState.Multicode }, ?_, h1, trivial⟩
      simp [run_line, hps, hc]
    · obtain ⟨t, ht⟩ := Option.isSome_iff_exists.mp h2'
      refine ⟨{ st with
          lang_texts := hashInsert st.lang_texts lang (t ++ line ++ "\n") },
        ?_, ?_, ?_⟩
      · simp [run_line, hps, hc, ht]
      · intro l hl
        exact lookup_isSome_hashInsert _ _ _ _ (h1 l hl)
      · show psInv st.parse_state
          (hashInsert st.lang_texts lang (t ++ line ++ "\n"))
        rw [hps]
        show (List.lookup lang
          (hashInsert st.lang_texts lang (t ++ line ++ "\n"))).isSome = true
        simp [lookup_hashInsert_self]

theorem run_lines_total (lines : List String) (st : St) (h : StInv st) :
    ∃ st', run_lines st lines = some st' ∧ StInv st' := by
  induction lines generalizing st with
  | nil => exact ⟨st, rfl, h⟩
  | cons l ls ih =>
    obtain ⟨st2, hst2, hinv2⟩ := run_line_total st l h
    obtain ⟨st', hst', hinv'⟩ := ih st2 hinv2
    exact ⟨st', by simp [run_lines, hst2, hst'], hinv'⟩

theorem StInv_init (header : String) : StInv (init_state header) := by
  exact ⟨by simp [init_state], trivial⟩

theorem run_chapter_total (header content : String) :
    (run_chapter header content).isSome = true := by
  obtain ⟨st', hst', -⟩ :=
    run_lines_total (content_lines content) (init_state header) (StInv_init header)
  simp [run_chapter, hst']

/-! ## The escaper: the five-pass replacement equals the one-pass
per-character escaping -/

theorem replace_char_append (a b : List Char) (c : Char) (r : List Char) :
    replace_char (a ++ b) c r = replace_char a c r ++ replace_char b c r := by
  induction a with
  | nil => simp [replace_char]
  | cons x xs ih => simp [replace_char, ih]

theorem escape_head (x : Char) :
    replace_char (replace_char (replace_char (replace_char (replace_char
      [x] '&' "&amp;".data) '<' "&lt;".data) '>' "&gt;".data)
      (Char.ofNat 34) "&quot;".data) (Char.ofNat 39) "&#39;".data
    = escapeCharSpec x := by
  by_cases h1 : x = '&'
  · subst h1; decide
  by_cases h2 : x = '<'
  · subst h2; decide
  by_cases h3 : x = '>'
  · subst h3; decide
  by_cases h4 : x = Char.ofNat 34
  · subst h4; decide
  by_cases h5 : x = Char.ofNat 39
  · subst h5; decide
  simp [replace_char, escapeCharSpec, h1, h2, h3, h4, h5]

theorem escape_core_eq (l : List Char) :
    replace_char (replace_char (replace_char (replace_char (replace_char
      l '&' "&amp;".data) '<' "&lt;".data) '>' "&gt;".data)
      (Char.ofNat 34) "&quot;".data) (Char.ofNat 39) "&#39;".data
    = escape_spec_core l := by
  induction l with
  | nil => decide
  | cons x xs ih =>
    show replace_char (replace_char (replace_char (replace_char (replace_char
      ([x] ++ xs) '&' "&amp;".data) '<' "&lt;".data) '>' "&gt;".data)
      (Char.ofNat 34) "&quot;".data) (Char.ofNat 39) "&#39;".data
      = escape_spec_core (x :: xs)
    simp only [replace_char_append]
    rw [escape_head x, ih]
    rfl

theorem html_escape_eq (s : String) : html_escape s = escape_spec s := by
  show String.mk (replace_char (replace_char (replace_char (replace_char
    (replace_char s.data '&' "&amp;".data) '<' "&lt;".data) '>' "&gt;".data)
    (Char.ofNat 34) "&quot;".data) (Char.ofNat 39) "&#39;".data)
    = escape_spec s
  rw [escape_core_eq]
  rfl

/-! ## Decimal rendering is injective (distinctness of group ids) -/

theorem toDecCore_eq_digits (f : Nat) : ∀ (n : Nat) (ds : List Char),
    0 < n → n < f →
    toDecCore f n ds
      = ((Nat.digits 10 n).map decDigitChar).reverse ++ ds := by
  induction f with
  | zero => intro n ds hn hf; omega
  | succ f ih =>
    intro n ds hn hf
    rw [toDecCore]
    have hdig : Nat.digits 10 n = n % 10 :: Nat.digits 10 (n / 10) :=
      Nat.digits_def' (by norm_num) hn
    by_cases hq : n / 10 = 0
    · simp [hq, hdig]
    · have hq0 : 0 < n / 10 := Nat.pos_of_ne_zero hq
      have hlt : n / 10 < f := by
        have : n / 10 < n := Nat.div_lt_self hn (by norm_num)
        omega
      rw [if_neg hq, ih (n / 10) _ hq0 hlt, hdig]
      simp

theorem natDec_pos (n : Nat) (hn : 0 < n) :
    natDec n = String.mk (((Nat.digits 10 n).map decDigitChar).reverse) := by
  rw [natDec, toDecCore_eq_digits (n + 1) n [] hn (by omega)]
  simp

theorem decDigitChar_inj :
    ∀ a, a < 10 → ∀ b, b < 10 → decDigitChar a = decDigitChar b → a = b := by
  decide

theorem map_decDigitChar_inj (l1 l2 : List Nat)
    (h1 : ∀ d ∈ l1, d < 10) (h2 : ∀ d ∈ l2, d < 10)
    (h : l1.map decDigitChar = l2.map decDigitChar) : l1 = l2 := by
  induction l1 generalizing l2 with
  | nil => cases l2 with
    | nil => rfl
    | cons b bs => simp at h
  | cons a as ih =>
    cases l2 with
    | nil => simp at h
    | cons b bs =>
      simp only [List.map_cons, List.cons.injEq] at h
      have hab : a = b :=
        decDigitChar_inj a (h1 a (by simp)) b (h2 b (by simp)) h.1
      have hrest : as = bs :=
        ih bs (fun d hd => h1 d (by simp [hd])) (fun d hd => h2 d (by simp [hd])) h.2
      rw [hab, hrest]

theorem natDec_inj (n m : Nat) (h : natDec n = natDec m) : n = m := by
  rcases Nat.eq_zero_or_pos n with hn | hn
  · rcases Nat.eq_zero_or_pos m with hm | hm
    · rw [hn, hm]
    · exfalso
      subst hn
      rw [natDec_pos m hm] at h
      have hdata : ['0'] = ((Nat.digits 10 m).map decDigitChar).reverse :=
        congrArg String.data h
      have hmap : (Nat.digits 10 m).map decDigitChar = ['0'] := by
        have := congrArg List.reverse hdata
        simpa using this.symm
      cases hdig : Nat.digits 10 m with
      | nil => rw [hdig] at hmap; simp at hmap
      | cons d ds =>
        rw [hdig] at hmap
        simp only [List.map_cons, List.cons.injEq] at hmap
        have hds : ds = [] := by
          have := hmap.2
          cases ds with
          | nil => rfl
          | cons e es => simp at this
        have hd10 : d < 10 := Nat.digits_lt_base (by norm_num) (by rw [hdig]; simp)
        have hd0 : d = 0 :=
          decDigitChar_inj d hd10 0 (by norm_num) (by simpa using hmap.1)
        have : m = 0 := by
          have hof := Nat.ofDigits_digits 10 m
          rw [hdig, hds, hd0] at hof
          simpa [Nat.ofDigits] using hof.symm
        omega
  · rcases Nat.eq_zero_or_pos m with hm | hm
    · exfalso
      subst hm
      rw [natDec_pos n hn] at h
      have hdata : ((Nat.digits 10 n).map decDigitChar).reverse = ['0'] :=
        congrArg String.data h
      have hmap : (Nat.digits 10 n).map decDigitChar = ['0'] := by
        have := congrArg List.reverse hdata
        simpa using this
      cases hdig : Nat.digits 10 n with
      | nil => rw [hdig] at hmap; simp at hmap
      | cons d ds =>
        rw [hdig] at hmap
        simp only [List.map_cons, List.cons.injEq] at hmap
        have hds : ds = [] := by
          have := hmap.2
          cases ds with
          | nil => rfl
          | cons e es => simp at this
        have hd10 : d < 10 := Nat.digits_lt_base (by norm_num) (by rw [hdig]; simp)
        have hd0 : d = 0 :=
          decDigitChar_inj d hd10 0 (by norm_num) (by simpa using hmap.1)
        have : n = 0 := by
          have hof := Nat.ofDigits_digits 10 n
          rw [hdig, hds, hd0] at hof
          simpa [Nat.ofDigits] using hof.symm
        omega
    · rw [natDec_pos n hn, natDec_pos m hm] at h
      have hdata : ((Nat.digits 10 n).map decDigitChar).reverse
          = ((Nat.digits 10 m).map decDigitChar).reverse :=
        congrArg String.data h
      have hmap : (Nat.digits 10 n).map decDigitChar
          = (Nat.digits 10 m).map decDigitChar := by
        have := congrArg List.reverse hdata
        simpa using this
      have hdig : Nat.digits 10 n = Nat.digits 10 m :=
        map_decDigitChar_inj _ _
          (fun d hd => Nat.digits_lt_base (by norm_num) hd)
          (fun d hd => Nat.digits_lt_base (by norm_num) hd) hmap
      exact Nat.digits.injective 10 hdig

theorem example_class_name_inj (n m : Nat) (h : n ≠ m) :
    example_class_name n ≠ example_class_name m := by
  intro he
  apply h
  apply natDec_inj
  have hdata := congrArg String.data he
  simp only [example_class_name, String.data_append] at hdata
  have := List.append_cancel_left hdata
  exact congrArg String.mk this

/-! ## Structural lemmas about the line loop -/

theorem run_line_langs_grow (st : St) (line : String) (st' : St)
    (h : run_line st line = some st') : st.langs <+: st'.langs := by
  cases hps : st.parse_state with
  | Nothing =>
    rw [run_line, hps] at h
    by_cases hm : multicode_regex line = true
    · simp [hm, if_true] at h
      subst h
      exact List.prefix_refl _
    · simp [hm, if_false] at h
      subst h
      exact List.prefix_refl _
  | Multicode =>
    rw [run_line, hps] at h
    by_cases he : end_multicode line = true
    · by_cases hemp : st.langs.isEmpty = true
      · simp [he, hemp, if_true] at h
        subst h
        exact List.prefix_refl _
      · cases hem : emit_block st.lang_example_no st.langs st.lang_texts with
        | none => simp [he, hemp, hem] at h
        | some m =>
          simp [he, hemp, hem, if_true, if_false] at h
          subst h
          exact List.prefix_refl _
    · cases hcs : code_start line with
      | none =>
        simp [he, hcs, if_false] at h
        subst h
        exact List.prefix_refl _
      | some lang =>
        simp [he, hcs, if_false] at h
        subst h
        exact List.prefix_append _ _
  | Code lang =>
    rw [run_line, hps] at h
    by_cases hc : code_end line = true
    · simp [hc, if_true] at h
      subst h
      exact List.prefix_refl _
    · cases ht : List.lookup lang st.lang_texts with
      | none => simp [hc, ht] at h
      | some t =>
        simp [hc, ht, if_false] at h
        subst h
        exact List.prefix_refl _

theorem run_lines_langs_grow (lines : List String) (st st' : St)
    (h : run_lines st lines = some st') : st.langs <+: st'.langs := by
  induction lines generalizing st with
  | nil =>
    rw [run_lines] at h
    cases h
    exact List.prefix_refl _
  | cons l ls ih =>
    rw [run_lines] at h
    cases h2 : run_line st l with
    | none => rw [h2] at h; cases h
    | some st2 =>
      rw [h2] at h
      exact (run_line_langs_grow st l st2 h2).trans (ih st2 h)

theorem run_line_seqno (st : St) (line : String) (st' : St)
    (h : run_line st line = some st') :
    st'.lang_example_no =
      if st.parse_state = ParseState.Multicode ∧ end_multicode line = true
      then st.lang_example_no + 1 else st.lang_example_no := by
  cases hps : st.parse_state with
  | Nothing =>
    rw [run_line, hps] at h
    rw [if_neg (by simp)]
    by_cases hm : multicode_regex line = true
    · simp [hm, if_true] at h
      subst h
      rfl
    · simp [hm, if_false] at h
      subst h
      rfl
  | Multicode =>
    rw [run_line, hps] at h
    by_cases he : end_multicode line = true
    · rw [if_pos ⟨rfl, he⟩]
      by_cases hemp : st.langs.isEmpty = true
      · simp [he, hemp, if_true] at h
        subst h
        rfl
      · cases hem : emit_block st.lang_example_no st.langs st.lang_texts with
        | none => simp [he, hemp, hem] at h
        | some m =>
          simp [he, hemp, hem, if_true, if_false] at h
          subst h
          rfl
    · rw [if_neg (by simp [he])]
      cases hcs : code_start line with
      | none =>
        simp [he, hcs, if_false] at h
        subst h
        rfl
      | some lang =>
        simp [he, hcs, if_false] at h
        subst h
        rfl
  | Code lang =>
    rw [run_line, hps] at h
    rw [if_neg (by simp)]
    by_cases hc : code_end line = true
    · simp [hc, if_true] at h
      subst h
      rfl
    · cases ht : List.lookup lang st.lang_texts with
      | none => simp [hc, ht] at h
      | some t =>
        simp [hc, ht, if_false] at h
        subst h
        rfl

theorem run_line_seqno_le (st : St) (line : String) (st' : St)
    (h : run_line st line = some st') :
    st.lang_example_no ≤ st'.lang_example_no := by
  rw [run_line_seqno st line st' h]
  split <;> omega

theorem run_lines_seqno_le (lines : List String) (st st' : St)
    (h : run_lines st lines = some st') :
    st.lang_example_no ≤ st'.lang_example_no := by
  induction lines generalizing st with
  | nil => rw [run_lines] at h; cases h; exact Nat.le_refl _
  | cons l ls ih =>
    rw [run_lines] at h
    cases h2 : run_line st l with
    | none => rw [h2] at h; cases h
    | some st2 =>
      rw [h2] at h
      exact (run_line_seqno_le st l st2 h2).trans (ih st2 h)

theorem run_lines_idle (lines : List String) (st : St)
    (hps : st.parse_state = ParseState.Nothing)
    (h : ∀ l ∈ lines, multicode_regex l = false) :
    run_lines st lines
      = some { st with new_content := st.new_content ++ join_lines lines } := by
  induction lines generalizing st with
  | nil =>
    cases st
    simp_all [run_lines, join_lines]
  | cons l ls ih =>
    have hl : multicode_regex l = false := h l (by simp)
    have hstep : run_line st l
        = some { st with new_content := st.new_content ++ l ++ "\n" } := by
      rw [run_line, hps]
      simp [hl]
    rw [run_lines, hstep]
    show run_lines { st with new_content := st.new_content ++ l ++ "\n" } ls = _
    rw [ih { st with new_content := st.new_content ++ l ++ "\n" } hps
      (fun x hx => h x (by simp [hx]))]
    simp [join_lines, String.append_assoc]

theorem run_lines_discard (inner : List String) (st : St)
    (hps : st.parse_state = ParseState.Multicode)
    (h : ∀ l ∈ inner, end_multicode l = false ∧ code_start l = none) :
    run_lines st inner = some st := by
  induction inner with
  | nil => rfl
  | cons l ls ih =>
    obtain ⟨he, hcs⟩ := h l (by simp)
    have hstep : run_line st l = some st := by
      rw [run_line, hps]
      simp [he, hcs]
    rw [run_lines, hstep]
    exact ih (fun x hx => h x (by simp [hx]))

theorem run_line_in_block (st : St) (line : String) (st' : St)
    (h : run_line st line = some st')
    (hps : st.parse_state ≠ ParseState.Nothing)
    (he : end_multicode line = false) :
    st'.new_content = st.new_content ∧
      st'.parse_state ≠ ParseState.Nothing := by
  cases hpse : st.parse_state with
  | Nothing => exact absurd hpse hps
  | Multicode =>
    rw [run_line, hpse] at h
    rw [he] at h
    cases hcs : code_start line with
    | none =>
      simp [hcs] at h
      subst h
      exact ⟨rfl, by rw [hpse]; simp⟩
    | some lang =>
      simp [hcs] at h
      subst h
      exact ⟨rfl, by simp⟩
  | Code lang =>
    rw [run_line, hpse] at h
    by_cases hc : code_end line = true
    · simp [hc, if_true] at h
      subst h
      exact ⟨rfl, by simp⟩
    · cases ht : List.lookup lang st.lang_texts with
      | none => simp [hc, ht] at h
      | some t =>
        simp [hc, ht, if_false] at h
        subst h
        exact ⟨rfl, by simp⟩

theorem run_lines_in_block (lines : List String) (st : St)
    (hinv : StInv st)
    (hps : st.parse_state ≠ ParseState.Nothing)
    (he : ∀ l ∈ lines, end_multicode l = false) :
    ∃ st', run_lines st lines = some st' ∧
      st'.new_content = st.new_content ∧
      st'.parse_state ≠ ParseState.Nothing := by
  induction lines generalizing st with
  | nil => exact ⟨st, rfl, rfl, hps⟩
  | cons l ls ih =>
    obtain ⟨st2, hst2, hinv2⟩ := run_line_total st l hinv
    obtain ⟨hout2, hps2⟩ :=
      run_line_in_block st l st2 hst2 hps (he l (by simp))
    obtain ⟨st', hst', hout', hps'⟩ :=
      ih st2 hinv2 hps2 (fun x hx => he x (by simp [hx]))
    refine ⟨st', ?_, by rw [hout', hout2], hps'⟩
    rw [run_lines, hst2]
    show run_lines st2 ls = some st'
    exact hst'

/-! ## Claims -/

/-- C1, counterexample: in `docC1`, at the moment the second block-open line
(the sixth line) is consumed, `language_order` still holds `rust` from the
first block — it is not empty — and the second block's selector consequently
contains an option for `rust` although the second block only declares
`cpp`. -/
theorem claim_C1_counterexample :
    (content_lines docC1).take 6
      = ["```multicode", ">>>>> rust", "a", "<<<<<", "```", "```multicode"] ∧
    multicode_regex "```multicode" = true ∧
    (run_lines (init_state "H") ((content_lines docC1).take 6)).map St.langs
      = some ["rust"] ∧
    (run_chapter "H" docC1).map (fun s =>
      isSubArr (lang_select_option (example_class_name 1) "rust").data s.data)
      = some true := by decide

/-- C1, amended: a block-open line does not start a fresh block.
`language_order` is empty only in the initial per-chapter state and only
ever grows during the loop (the state of an earlier block is carried into
later blocks of the same chapter), so the markup emitted at a later block's
close also covers every language declared by earlier blocks, as the
concrete conjunct of `claim_C1_counterexample` exhibits. -/
theorem claim_C1_amended :
    (∀ st lines st', run_lines st lines = some st' →
      st.langs <+: st'.langs) ∧
    (∀ header, (init_state header).langs = []) :=
  ⟨fun st lines st' h => run_lines_langs_grow lines st st' h, fun _ => rfl⟩

/-- Witness for `claim_C1_amended` at a concrete one-line run. -/
theorem claim_C1_amended_witness :
    (init_state "w").langs <+:
      ({ lang_example_no := 0, langs := [], lang_texts := [],
         new_content := "w\nx\n", parse_state := ParseState.Nothing } : St).langs :=
  claim_C1_amended.1 (init_state "w") ["x"] _ (by decide)

/-- C2, counterexample: in `docC2` the language `rust` is declared twice in
one block; the final order list holds two `rust` entries and the emitted
selector contains two adjacent identical `rust` options (hence also two
panels), not exactly one. -/
theorem claim_C2_counterexample :
    (run_lines (init_state "H") (content_lines docC2)).map St.langs
      = some ["rust", "rust"] ∧
    (run_chapter "H" docC2).map (fun s =>
      isSubArr (lang_select_option (example_class_name 0) "rust"
        ++ lang_select_option (example_class_name 0) "rust").data s.data)
      = some true := by decide

/-- C2, amended: a section-open line always appends its language to
`language_order`, also when the language is already present (so a language
declared n times yields n options and n panels), and resets the language's
stored text to the empty string; the parser enters the language section. -/
theorem claim_C2_amended : ∀ (st : St) (line lang : String) (st' : St),
    st.parse_state = ParseState.Multicode →
    code_start line = some lang →
    run_line st line = some st' →
    st'.langs = st.langs ++ [lang] ∧
    List.lookup lang st'.lang_texts = some "" ∧
    st'.parse_state = ParseState.Code lang := by
  intro st line lang st' hps hcs h
  have he : end_multicode line = false := by
    by_cases hE : end_multicode line = true
    · have hline : line = "```" := by simpa [end_multicode] using hE
      have hnone : code_start "```" = none := by decide
      rw [hline, hnone] at hcs
      simp at hcs
    · simpa using hE
  rw [run_line, hps] at h
  simp [he, hcs] at h
  subst h
  exact ⟨rfl, by simp [lookup_hashInsert_self], rfl⟩

/-- Witness for `claim_C2_amended`: re-opening `rust` when it is already
declared with stored text `a\n` appends a second entry and resets the text. -/
theorem claim_C2_amended_witness :
    ({ lang_example_no := 0, langs := ["rust", "rust"],
       lang_texts := [("rust", "")], new_content := "H\n",
       parse_state := ParseState.Code "rust" } : St).langs
      = ({ lang_example_no := 0, langs := ["rust"],
           lang_texts := [("rust", "a\n")], new_content := "H\n",
           parse_state := ParseState.Multicode } : St).langs ++ ["rust"] ∧
    List.lookup "rust"
      ({ lang_example_no := 0, langs := ["rust", "rust"],
         lang_texts := [("rust", "")], new_content := "H\n",
         parse_state := ParseState.Code "rust" } : St).lang_texts = some "" ∧
    ({ lang_example_no := 0, langs := ["rust", "rust"],
       lang_texts := [("rust", "")], new_content := "H\n",
       parse_state := ParseState.Code "rust" } : St).parse_state
      = ParseState.Code "rust" :=
  claim_C2_amended
    { lang_example_no := 0, langs := ["rust"], lang_texts := [("rust", "a\n")],
      new_content := "H\n", parse_state := ParseState.Multicode }
    ">>>>> rust" "rust" _ rfl (by decide) (by decide)

theorem run_lines_cons_some (st st2 : St) (l : String) (ls : List String)
    (h : run_line st l = some st2) :
    run_lines st (l :: ls) = run_lines st2 ls := by
  rw [run_lines, h]

theorem run_lines_append (a b : List String) (st : St) :
    run_lines st (a ++ b)
      = match run_lines st a with
        | none => none
        | some st2 => run_lines st2 b := by
  induction a generalizing st with
  | nil => rfl
  | cons l ls ih =>
    show run_lines st (l :: (ls ++ b)) = _
    rw [run_lines]
    cases h : run_line st l with
    | none => rw [run_lines, h]
    | some st2 =>
      rw [run_lines, h]
      exact ih st2

/-- C3, counterexample: appending a section-less block to `docC3base`
changes the output: the empty second block of `docC3` re-emits the carried
`rust` state under the fresh group id `code-example-tab-1`, so the block
contributes bytes. -/
theorem claim_C3_counterexample :
    docC3 = docC3base ++ "```multicode\n```\n" ∧
    run_chapter "H" docC3 ≠ run_chapter "H" docC3base ∧
    (run_chapter "H" docC3).map (fun s =>
      isSubArr (example_class_name 1).data s.data) = some true := by decide

/-- C3, amended: a block with zero section-open lines contributes zero
bytes provided no earlier block of the same chapter declared a language
(`langs` still empty, in particular for a chapter's first block): its
open and close markers are consumed, nothing is appended to the output,
and only the sequence number advances. -/
theorem claim_C3_amended : ∀ (st : St) (inner : List String),
    st.parse_state = ParseState.Nothing →
    st.langs = [] →
    (∀ l ∈ inner, end_multicode l = false ∧ code_start l = none) →
    run_lines st ("```multicode" :: (inner ++ ["```"]))
      = some { st with parse_state := ParseState.Nothing,
                       lang_example_no := st.lang_example_no + 1 } := by
  intro st inner hps hlangs hinner
  obtain ⟨no, lgs, txts, out, ps⟩ := st
  simp only at hps hlangs
  subst hps
  subst hlangs
  have h1 : run_line
      ⟨no, [], txts, out, ParseState.Nothing⟩ "```multicode"
      = some ⟨no, [], txts, out, ParseState.Multicode⟩ := by
    rw [run_line]
    simp [multicode_regex]
  rw [run_lines_cons_some _ _ _ _ h1]
  rw [run_lines_append,
    run_lines_discard inner ⟨no, [], txts, out, ParseState.Multicode⟩ rfl hinner]
  show run_lines ⟨no, [], txts, out, ParseState.Multicode⟩ ["```"] = _
  have h2 : run_line ⟨no, [], txts, out, ParseState.Multicode⟩ "```"
      = some ⟨no + 1, [], txts, out, ParseState.Nothing⟩ := by
    rw [run_line]
    simp [end_multicode]
  rw [run_lines_cons_some _ _ _ _ h2]
  rfl

/-- Witness for `claim_C3_amended`: a first block holding only the inner
line `y` vanishes and only advances the sequence number. -/
theorem claim_C3_amended_witness :
    run_lines (init_state "h") ("```multicode" :: (["y"] ++ ["```"]))
      = some { init_state "h" with parse_state := ParseState.Nothing,
                                   lang_example_no := 0 + 1 } :=
  claim_C3_amended (init_state "h") ["y"] rfl rfl (by decide)

/-- C4, counterexample: the text `a` has no block-open line, yet the output
is the header, a newline and `a\n` — a final newline was added, so the
output is not the original text unchanged. -/
theorem claim_C4_counterexample :
    (∀ l ∈ content_lines "a", multicode_regex l = false) ∧
    run_chapter "H" "a" = some ("H" ++ "\n" ++ "a\n") ∧
    ("H" ++ "\n" ++ "a\n" : String) ≠ "H" ++ "\n" ++ "a" := by decide

/-- C4, amended: for documents with no block-open line whose text is
line-normal — splitting it into lines and re-joining each line with a
trailing line feed reproduces the text, i.e. the text is empty or ends in a
bare line feed and has no carriage-return line endings — the output is the
template header, a newline, and the original text unchanged (otherwise the
line-joining normalizes the text: a missing final newline is added and
carriage returns before line feeds are dropped). -/
theorem claim_C4_amended : ∀ header content,
    (∀ l ∈ content_lines content, multicode_regex l = false) →
    join_lines (content_lines content) = content →
    run_chapter header content = some (header ++ "\n" ++ content) := by
  intro header content h hjoin
  rw [run_chapter, run_lines_idle (content_lines content) (init_state header) rfl h]
  simp [init_state, hjoin, String.append_assoc]

/-- Witness for `claim_C4_amended` on the newline-terminated text `x\n`. -/
theorem claim_C4_amended_witness :
    run_chapter "H" "x\n" = some ("H" ++ "\n" ++ "x\n") :=
  claim_C4_amended "H" "x\n" (by decide) (by decide)

/-- C5: the five successive replacement passes of `html_escape` (ampersand
first) equal the one-pass per-character escaping: each occurrence of the
five special characters yields exactly one entity, the introduced entities
are not rewritten further, and every other character (newlines included)
is preserved verbatim. -/
theorem claim_C5_escaper (s : String) : html_escape s = escape_spec s :=
  html_escape_eq s

/-- C6: the chapter state starts at sequence number 0; a consumed line
increments the sequence number by exactly one when it closes a block
(whatever the block's language list) and leaves it unchanged otherwise;
the number never decreases over a run; distinct sequence numbers give
distinct group ids `code-example-tab-{n}`; and concretely the two
identical-language blocks of `docC6` close at sequence numbers 0 and 1 and
the output holds markup for both group ids `code-example-tab-0` and
`code-example-tab-1`. -/
theorem claim_C6_sequence :
    (∀ header, (init_state header).lang_example_no = 0) ∧
    (∀ st line st', run_line st line = some st' →
      st'.lang_example_no =
        if st.parse_state = ParseState.Multicode ∧ end_multicode line = true
        then st.lang_example_no + 1 else st.lang_example_no) ∧
    (∀ lines st st', run_lines st lines = some st' →
      st.lang_example_no ≤ st'.lang_example_no) ∧
    (∀ n m, n ≠ m → example_class_name n ≠ example_class_name m) ∧
    ((run_lines (init_state "H") (content_lines docC6)).map St.lang_example_no
      = some 2) ∧
    ((run_chapter "H" docC6).map (fun s =>
      isSubArr (script_tag (example_class_name 0) "rust").data s.data &&
      isSubArr (script_tag (example_class_name 1) "rust").data s.data)
      = some true) :=
  ⟨fun _ => rfl, run_line_seqno, run_lines_seqno_le, example_class_name_inj,
   by decide, by decide⟩

/-- Witness for `claim_C6_sequence`: closing a block at sequence number 0
yields sequence number 1, and the two group ids differ. -/
theorem claim_C6_sequence_witness :
    ({ lang_example_no := 1, langs := [], lang_texts := [], new_content := "",
       parse_state := ParseState.Nothing } : St).lang_example_no =
      (if ({ lang_example_no := 0, langs := [], lang_texts := [],
             new_content := "",
             parse_state := ParseState.Multicode } : St).parse_state
            = ParseState.Multicode ∧ end_multicode "```" = true
       then ({ lang_example_no := 0, langs := [], lang_texts := [],
               new_content := "",
               parse_state := ParseState.Multicode } : St).lang_example_no + 1
       else ({ lang_example_no := 0, langs := [], lang_texts := [],
               new_content := "",
               parse_state := ParseState.Multicode } : St).lang_example_no) ∧
    example_class_name 0 ≠ example_class_name 1 :=
  ⟨claim_C6_sequence.2.1
      { lang_example_no := 0, langs := [], lang_texts := [], new_content := "",
        parse_state := ParseState.Multicode } "```" _ (by decide),
   claim_C6_sequence.2.2.2.1 0 1 (by decide)⟩

/-- C7: when the preprocessor's configuration table contains the `blow-up`
key the whole run fails with the fatal error before any chapter is
rewritten, and no chapter output is produced; otherwise the run succeeds
and every chapter's transformation succeeds, so the blow-up key is the only
failure condition. -/
theorem claim_C7_blow_up : ∀ cfg header chapters,
    (blow_up_requested cfg = true →
      run cfg header chapters = Except.error "Blowing up!") ∧
    (blow_up_requested cfg = false →
      run cfg header chapters = Except.ok (chapters.map (run_chapter header)) ∧
      ∀ c ∈ chapters, (run_chapter header c).isSome = true) := by
  intro cfg header chapters
  constructor
  · intro h
    simp [run, h]
  · intro h
    exact ⟨by simp [run, h], fun c _ => run_chapter_total header c⟩

/-- Witness for `claim_C7_blow_up`: a configuration with the key fails, one
without it succeeds. -/
theorem claim_C7_blow_up_witness :
    run (some ["blow-up"]) "H" ["x"] = Except.error "Blowing up!" ∧
    run none "H" ["x"] = Except.ok (["x"].map (run_chapter "H")) :=
  ⟨(claim_C7_blow_up (some ["blow-up"]) "H" ["x"]).1 (by decide),
   ((claim_C7_blow_up none "H" ["x"]).2 (by decide)).1⟩

/-- C8: a section-open line for a language always resets that language's
stored text to the empty string (in particular at a re-declaration), so the
stored text when the block closes — and hence every emitted panel for that
language — holds only the text of the language's last section: in `docC8`,
where `rust` holds `a` and then `b`, the final stored text is `b\n`, the
output holds the panel rendering `b\n` and nowhere holds `a` followed by a
line feed (no append semantics). -/
theorem claim_C8_overwrite :
    (∀ (st : St) (line lang : String) (st' : St),
      st.parse_state = ParseState.Multicode →
      code_start line = some lang →
      run_line st line = some st' →
      List.lookup lang st'.lang_texts = some "") ∧
    ((run_lines (init_state "H") (content_lines docC8)).map St.lang_texts
      = some [("rust", "b\n")]) ∧
    ((run_chapter "H" docC8).map (fun s =>
      isSubArr (lang_panel (example_class_name 0) "rust" "b\n").data s.data &&
      !(isSubArr "a\n".data s.data)) = some true) := by
  refine ⟨?_, by decide, by decide⟩
  intro st line lang st' hps hcs h
  have he : end_multicode line = false := by
    by_cases hE : end_multicode line = true
    · have hline : line = "```" := by simpa [end_multicode] using hE
      have hnone : code_start "```" = none := by decide
      rw [hline, hnone] at hcs
      simp at hcs
    · simpa using hE
  rw [run_line, hps] at h
  simp [he, hcs] at h
  subst h
  simp [lookup_hashInsert_self]

/-- Witness for `claim_C8_overwrite`: re-opening `rust` while its stored
text is `a\n` resets the entry to the empty string. -/
theorem claim_C8_overwrite_witness :
    List.lookup "rust"
      ({ lang_example_no := 0, langs := ["rust", "rust"],
         lang_texts := [("rust", "")], new_content := "H\n",
         parse_state := ParseState.Code "rust" } : St).lang_texts = some "" :=
  claim_C8_overwrite.1
    { lang_example_no := 0, langs := ["rust"], lang_texts := [("rust", "a\n")],
      new_content := "H\n", parse_state := ParseState.Multicode }
    ">>>>> rust" "rust" _ rfl (by decide) (by decide)

/-- C9, counterexample: `docC9` ends inside an unterminated `cpp` section
of its second block; the run completes (no error), but the output is not
the header plus the lines handled in the `Nothing` state (under any reading
of that set: no line is copied in `Nothing`, the two block-open markers are
merely consumed there), because the first, completed block emitted its
markup into the output. -/
theorem claim_C9_counterexample :
    (run_lines (init_state "H") (content_lines docC9)).map St.parse_state
      = some (ParseState.Code "cpp") ∧
    (run_chapter "H" docC9).isSome = true ∧
    run_chapter "H" docC9 ≠ some ("H" ++ "\n") ∧
    run_chapter "H" docC9 ≠ some ("H" ++ "\n" ++ join_lines ["```multicode"]) ∧
    run_chapter "H" docC9
      ≠ some ("H" ++ "\n" ++ join_lines ["```multicode", "```multicode"]) := by
  decide

/-- C9, amended: a document ending inside an unterminated block or section
is processed without any error, and the unterminated tail — the lines from
the last block-open on, none of which is a block-close — contributes
nothing to the output, so the text buffered for the unterminated block
never appears: the output is the header, the lines copied in the idle
state, and the markup of the blocks completed earlier in the document.
Concretely, in `docC9` the buffered `zz` of the unterminated block is
absent from the output while the first block's markup is present. -/
theorem claim_C9_amended :
    (∀ (st : St) (lines : List String),
      StInv st →
      st.parse_state ≠ ParseState.Nothing →
      (∀ l ∈ lines, end_multicode l = false) →
      ∃ st', run_lines st lines = some st' ∧
        st'.new_content = st.new_content) ∧
    ((run_chapter "H" docC9).map (fun s =>
      !(isSubArr "zz".data s.data) &&
      isSubArr (example_class_name 0).data s.data) = some true) := by
  constructor
  · intro st lines hinv hps he
    obtain ⟨st', h1, h2, -⟩ := run_lines_in_block lines st hinv hps he
    exact ⟨st', h1, h2⟩
  · decide

/-- Witness for `claim_C9_amended`: inside a block, a content line adds
nothing to the output. -/
theorem claim_C9_amended_witness :
    ∃ st', run_lines
      { lang_example_no := 0, langs := [], lang_texts := [],
        new_content := "o\n", parse_state := ParseState.Multicode } ["x"]
      = some st' ∧
      st'.new_content =
        ({ lang_example_no := 0, langs := [], lang_texts := [],
           new_content := "o\n",
           parse_state := ParseState.Multicode } : St).new_content :=
  claim_C9_amended.1
    { lang_example_no := 0, langs := [], lang_texts := [],
      new_content := "o\n", parse_state := ParseState.Multicode }
    ["x"] (by decide) (by decide) (by decide)

/-- C10: at every point of the loop, every language in the order list has
an entry in the text map and the emitter only runs on a non-empty list
(the invariant `StInv` maintained by `run_line_total`), so all the
embedded `unwrap` accesses succeed: the transformation of any chapter
never fails. -/
theorem claim_C10_safety : ∀ header content,
    (run_chapter header content).isSome = true :=
  run_chapter_total
